import Mathlib

/-!
Verification of the gitalong batched resolution pipeline and tracked-commit store
against its specification.

Shallow embedding notes:
- a tracked-commit record (a Python dict with string keys) is an association list
  with unique keys over a small value type `Val`;
- timestamps are naturals (the source stores strings whose lexicographic order is
  chronological);
- subprocess execution, the filesystem and the HTTP transport are explicit oracle
  parameters, and Python exceptions are modelled with `Except`;
- functions keep the names of the source functions of `src/gitalong/batch.py` and
  `src/gitalong/stores/jsonbin_store.py` they embed.
-/

/-- Values stored in a tracked-commit record: strings (`sha`, `remote`, `clone`,
`author`), a timestamp (`date`), a path list (`changes`) and the lazily populated
`branches` sub-dictionary with its `local` and `remote` keys. -/
inductive Val where
  | str (s : String)
  | nat (n : Nat)
  | strs (l : List String)
  | branchesDict (localB : Option (List String)) (remoteB : Option (List String))
deriving DecidableEq, Repr

/-- A tracked-commit record: a Python dict with string keys modelled as an
association list with unique keys. -/
abbrev Record := List (String × Val)

/-- Dict lookup `r[k]` / `r.get(k)`. -/
def getVal (r : Record) (k : String) : Option Val := List.lookup k r

/-- Python `k in r`. -/
def hasKey (r : Record) (k : String) : Bool := (getVal r k).isSome

/-- Python `r.get(k, d)` for string-valued fields (`clone`, `sha`, `remote`). -/
def getStrD (r : Record) (k : String) (d : String) : String :=
  match getVal r k with
  | some (Val.str s) => s
  | _ => d

/-- Python `r.get("changes", [])`. -/
def getChanges (r : Record) : List String :=
  match getVal r "changes" with
  | some (Val.strs l) => l
  | _ => []

/-- Sort key `commit.get("date")`; a missing or non-numeric date is modelled as 0. -/
def dateVal (r : Record) : Nat :=
  match getVal r "date" with
  | some (Val.nat n) => n
  | _ => 0

/-- Python `del r[k]` on a dict with unique keys. -/
def eraseKey (r : Record) (k : String) : Record :=
  r.filter (fun kv => kv.1 != k)

/-- Dict assignment `r[k] = v`, preserving insertion order as Python does. -/
def setKey (r : Record) (k : String) (v : Val) : Record :=
  if hasKey r k then r.map (fun kv => if kv.1 == k then (k, v) else kv)
  else r ++ [(k, v)]

/-- A concrete ledger record used by witnesses: the record of the specification's
self-heal scenario. -/
def sampleRecord : Record :=
  [("sha", Val.str "abc"), ("remote", Val.str "origin-url"),
   ("changes", Val.strs ["art/model.fbx"]), ("date", Val.nat 1)]

namespace CommitSpread

/-- Modelled from the spec: the `CommitSpread` bit flags (the enums module is not
under `src/`); one bit per flag, in the specification's listing order. -/
def MINE_UNCOMMITTED : Nat := 1

def MINE_ACTIVE_BRANCH : Nat := 2

def MINE_OTHER_BRANCH : Nat := 4

def REMOTE_MATCHING_BRANCH : Nat := 8

def REMOTE_OTHER_BRANCH : Nat := 16

def THEIR_OTHER_BRANCH : Nat := 32

def THEIR_MATCHING_BRANCH : Nat := 64

def THEIR_UNCOMMITTED : Nat := 128

end CommitSpread

/-- Inputs of the per-file body of `claim_files` (`src/gitalong/batch.py:257-275`)
read from the environment: the last commit resolved for the file, the spread
`repository.get_commit_spread(last_commit)` (0 when the path has no repository), the
`modify_permissions` configuration flag and `os.path.exists(filename)`. -/
structure ClaimInput where
  lastCommit : Record
  spread : Nat
  modifyPermissions : Bool
  fileExists : Bool
deriving DecidableEq, Repr

/-- Outcome of the per-file body of `claim_files`: the record appended to
`missing_commits` and the `read_only` arguments of the `set_read_only` calls issued
for this file. -/
structure ClaimOutcome where
  missingCommit : Record
  setReadOnlyCalls : List Bool
deriving DecidableEq, Repr

/-- The per-file body of `claim_files` (`src/gitalong/batch.py:262-275`): the claim
succeeds (`missing_commit = {}`) when the spread has `MINE_ACTIVE_BRANCH` or
`MINE_UNCOMMITTED`; `set_read_only(filename, bool(missing_commit))` runs only when
the file exists, `missing_commit` is falsy and `modify_permissions` is set. -/
def claim_files_step (i : ClaimInput) : ClaimOutcome :=
  let isLocalCommit :=
    i.spread &&& CommitSpread.MINE_ACTIVE_BRANCH == CommitSpread.MINE_ACTIVE_BRANCH
  let isUncommitted :=
    i.spread &&& CommitSpread.MINE_UNCOMMITTED == CommitSpread.MINE_UNCOMMITTED
  let missingCommit := if isLocalCommit || isUncommitted then ([] : Record) else i.lastCommit
  if i.fileExists && (missingCommit == ([] : Record)) && i.modifyPermissions then
    ⟨missingCommit, [false]⟩
  else
    ⟨missingCommit, []⟩

/-- C10: `claim_files` modifies a file's permission bits only when the file exists on
disk and the repository's `modify_permissions` configuration is enabled: when either
condition fails, no `set_read_only` call is issued, even for a claimable file. -/
theorem C10_claim_files_permissions_frame (i : ClaimInput)
    (h : i.fileExists = false ∨ i.modifyPermissions = false) :
    (claim_files_step i).setReadOnlyCalls = [] := by
  unfold claim_files_step
  rcases h with h | h <;> simp [h]

/-- C10 witness: a claimable file (spread exactly `MINE_ACTIVE_BRANCH`) that does not
exist on disk gets no `set_read_only` call, at a concrete input. -/
theorem C10_claim_files_permissions_frame_witness :
    (claim_files_step ⟨sampleRecord, CommitSpread.MINE_ACTIVE_BRANCH, true, false⟩).missingCommit
      = [] ∧
    (claim_files_step ⟨sampleRecord, CommitSpread.MINE_ACTIVE_BRANCH, true, false⟩).setReadOnlyCalls
      = [] :=
  ⟨by decide, C10_claim_files_permissions_frame
    ⟨sampleRecord, CommitSpread.MINE_ACTIVE_BRANCH, true, false⟩ (Or.inl rfl)⟩

/-- One round of the inner change loop of `get_files_last_commits`
(`src/gitalong/batch.py:71-74`): a tracked commit is appended once per entry of its
`changes` whose normalized form equals the normalized relative filename; `np` models
`os.path.normpath`. -/
def matchingChangeHits (np : String → String) (rel : String) (tc : Record) : List Record :=
  ((getChanges tc).filter (fun change => np change == np rel)).map (fun _ => tc)

/-- The candidate filter of `get_files_last_commits` (`src/gitalong/batch.py:63-74`):
skip a tracked commit when it lacks `sha` while `track_uncommitted` is off, or when
its `remote` differs from the repository's remote URL; otherwise collect it once per
matching change. -/
def relevant_tracked_commits (np : String → String) (trackUncommitted : Bool)
    (remote : String) (rel : String) : List Record → List Record
  | [] => []
  | tc :: rest =>
    (if (!trackUncommitted && !hasKey tc "sha") ||
        (getVal tc "remote" != some (Val.str remote)) then []
     else matchingChangeHits np rel tc) ++
      relevant_tracked_commits np trackUncommitted remote rel rest

/-- Python `relevant_tracked_commits.sort(key=lambda commit: commit.get("date"))`: a
stable ascending sort by date; insertion sort is extensionally that stable sort. -/
def sortByDate (l : List Record) : List Record :=
  List.insertionSort (fun a b => dateVal a ≤ dateVal b) l

/-- Selection `relevant_tracked_commits[-1]` after the sort
(`src/gitalong/batch.py:75-77`); `none` when there is no candidate. -/
def selectLastCommit (cands : List Record) : Option Record :=
  (sortByDate cands).getLast?

theorem mem_matchingChangeHits (np : String → String) (rel : String) (tc r : Record) :
    r ∈ matchingChangeHits np rel tc ↔ (r = tc ∧ ∃ c ∈ getChanges tc, np c = np rel) := by
  simp only [matchingChangeHits, List.mem_map, List.mem_filter, beq_iff_eq]
  constructor
  · rintro ⟨c, ⟨hc, heq⟩, rfl⟩
    exact ⟨rfl, c, hc, heq⟩
  · rintro ⟨rfl, c, hc, heq⟩
    exact ⟨c, ⟨hc, heq⟩, rfl⟩

theorem skip_condition_false_iff (tu : Bool) (tc : Record) (remote : String) :
    (((!tu && !hasKey tc "sha") || (getVal tc "remote" != some (Val.str remote))) = false) ↔
      ((tu = true ∨ hasKey tc "sha" = true) ∧ getVal tc "remote" = some (Val.str remote)) := by
  cases tu <;> cases h : hasKey tc "sha" <;> simp [h]

theorem mem_relevant_tracked_commits (np : String → String) (tu : Bool)
    (remote rel : String) (ledger : List Record) (r : Record) :
    r ∈ relevant_tracked_commits np tu remote rel ledger ↔
      (r ∈ ledger ∧ (tu = true ∨ hasKey r "sha" = true) ∧
       getVal r "remote" = some (Val.str remote) ∧
       ∃ c ∈ getChanges r, np c = np rel) := by
  induction ledger with
  | nil => simp [relevant_tracked_commits]
  | cons tc rest ih =>
    simp only [relevant_tracked_commits, List.mem_append, ih, List.mem_cons]
    by_cases hskip :
        ((!tu && !hasKey tc "sha") || (getVal tc "remote" != some (Val.str remote))) = true
    · rw [if_pos hskip]
      simp only [List.not_mem_nil, false_or]
      constructor
      · rintro ⟨hr, hcond⟩
        exact ⟨Or.inr hr, hcond⟩
      · rintro ⟨hr | hr, hcond⟩
        · subst hr
          have := (skip_condition_false_iff tu r remote).2 ⟨hcond.1, hcond.2.1⟩
          rw [this] at hskip
          cases hskip
        · exact ⟨hr, hcond⟩
    · have hfalse : ((!tu && !hasKey tc "sha") ||
          (getVal tc "remote" != some (Val.str remote))) = false := by
        revert hskip
        cases (!tu && !hasKey tc "sha") || (getVal tc "remote" != some (Val.str remote)) <;>
          simp
      rw [if_neg (by simp [hfalse])]
      have hcond := (skip_condition_false_iff tu tc remote).1 hfalse
      rw [mem_matchingChangeHits]
      constructor
      · rintro (⟨rfl, hch⟩ | ⟨hr, hc⟩)
        · exact ⟨Or.inl rfl, hcond.1, hcond.2, hch⟩
        · exact ⟨Or.inr hr, hc⟩
      · rintro ⟨hr | hr, hc⟩
        · subst hr
          exact Or.inl ⟨rfl, hc.2.2⟩
        · exact Or.inr ⟨hr, hc⟩

instance : IsTotal Record (fun a b => dateVal a ≤ dateVal b) :=
  ⟨fun a b => Nat.le_total (dateVal a) (dateVal b)⟩

instance : IsTrans Record (fun a b => dateVal a ≤ dateVal b) :=
  ⟨fun _ _ _ hab hbc => Nat.le_trans hab hbc⟩

theorem mem_sortByDate (l : List Record) (x : Record) : x ∈ sortByDate l ↔ x ∈ l :=
  (List.perm_insertionSort (fun a b => dateVal a ≤ dateVal b) l).mem_iff

theorem sorted_sortByDate (l : List Record) :
    List.Sorted (fun a b => dateVal a ≤ dateVal b) (sortByDate l) :=
  List.sorted_insertionSort (fun a b => dateVal a ≤ dateVal b) l

theorem le_dateVal_of_sorted_getLast {l : List Record} {m x : Record}
    (hs : List.Sorted (fun a b => dateVal a ≤ dateVal b) l) (hx : x ∈ l)
    (hm : l.getLast? = some m) : dateVal x ≤ dateVal m := by
  induction l with
  | nil => cases hx
  | cons a t ih =>
    cases t with
    | nil =>
      simp only [List.mem_singleton] at hx
      simp only [List.getLast?_singleton, Option.some.injEq] at hm
      subst hx
      subst hm
      exact Nat.le_refl _
    | cons b t2 =>
      rw [List.getLast?_cons_cons] at hm
      rcases List.mem_cons.1 hx with rfl | hx2
      · have hma : m ∈ b :: t2 := List.mem_of_mem_getLast? hm
        exact (List.sorted_cons.1 hs).1 m hma
      · exact ih (List.sorted_cons.1 hs).2 hx2 hm

/-- C1: for an input path of a managed repository, the candidates considered by
`get_files_last_commits` are exactly the ledger records whose `remote` equals the
repository's remote URL, whose `changes` contains the path after normalization and
relativization to the repository root (`rel`), and which have a `sha` key unless
`track_uncommitted` is enabled; and the selected record is a candidate of maximal
`date`. -/
theorem C1_candidates_and_selection (np : String → String) (tu : Bool)
    (remote rel : String) (ledger : List Record) (r c : Record)
    (hsel : selectLastCommit (relevant_tracked_commits np tu remote rel ledger) = some c) :
    (r ∈ relevant_tracked_commits np tu remote rel ledger ↔
      (r ∈ ledger ∧ (tu = true ∨ hasKey r "sha" = true) ∧
       getVal r "remote" = some (Val.str remote) ∧
       ∃ ch ∈ getChanges r, np ch = np rel)) ∧
    c ∈ relevant_tracked_commits np tu remote rel ledger ∧
    (∀ x ∈ relevant_tracked_commits np tu remote rel ledger, dateVal x ≤ dateVal c) := by
  simp only [selectLastCommit] at hsel
  refine ⟨mem_relevant_tracked_commits np tu remote rel ledger r, ?_, ?_⟩
  · exact (mem_sortByDate _ c).1 (List.mem_of_mem_getLast? hsel)
  · intro x hx
    exact le_dateVal_of_sorted_getLast (sorted_sortByDate _) ((mem_sortByDate _ x).2 hx) hsel

/-- An uncommitted claim record (no `sha`) with a later date, for the C1 witness. -/
def uncommittedRecord : Record :=
  [("remote", Val.str "origin-url"), ("clone", Val.str "/clones/b"),
   ("changes", Val.strs ["art/model.fbx"]), ("date", Val.nat 2)]

/-- A record of another remote, excluded from candidates, for the C1 witness. -/
def otherRemoteRecord : Record :=
  [("sha", Val.str "eee"), ("remote", Val.str "other-url"),
   ("changes", Val.strs ["art/model.fbx"]), ("date", Val.nat 3)]

/-- A three-record ledger exercising every clause of the candidate filter. -/
def witnessLedger : List Record := [sampleRecord, otherRemoteRecord, uncommittedRecord]

/-- C1 witness: on the concrete three-record ledger with `track_uncommitted = true`,
the selection picks the date-2 uncommitted record, the other-remote record is not a
candidate, and every candidate's date is bounded by the selected one's. -/
theorem C1_candidates_and_selection_witness :
    (otherRemoteRecord ∈
        relevant_tracked_commits id true "origin-url" "art/model.fbx" witnessLedger ↔
      (otherRemoteRecord ∈ witnessLedger ∧
       (true = true ∨ hasKey otherRemoteRecord "sha" = true) ∧
       getVal otherRemoteRecord "remote" = some (Val.str "origin-url") ∧
       ∃ ch ∈ getChanges otherRemoteRecord, id ch = id "art/model.fbx")) ∧
    uncommittedRecord ∈
      relevant_tracked_commits id true "origin-url" "art/model.fbx" witnessLedger ∧
    (∀ x ∈ relevant_tracked_commits id true "origin-url" "art/model.fbx" witnessLedger,
      dateVal x ≤ dateVal uncommittedRecord) :=
  C1_candidates_and_selection id true "origin-url" "art/model.fbx" witnessLedger
    otherRemoteRecord uncommittedRecord (by decide)

/-- Python exceptions arising in `src/gitalong/batch.py`: `TypeError` from
`create_subprocess_exec` on a non-string argument, `AttributeError` from calling
`.decode`/`.replace` on values of the wrong type, `IndexError` from indexing an empty
sequence, the broad `Exception` raised by `run_command` on a non-zero exit,
`RuntimeError` from re-awaiting a coroutine, `git.exc.GitCommandError` from fetch,
the gitpython rev-parse failure of `repo.commit`, and `ImportError` from a
`from ... import` naming something the module does not define. -/
inductive PyErr where
  | typeError
  | attributeError
  | indexError
  | commandFailed
  | runtimeError
  | gitCommandError
  | badName
  | importError
deriving DecidableEq, Repr

/-- Python `str.strip()`. -/
def pyStrip (s : String) : String :=
  String.mk ((s.data.dropWhile Char.isWhitespace).reverse.dropWhile Char.isWhitespace).reverse

/-- Python `str.replace(c, "")` for a single-character pattern. -/
def pyRemoveChar (s : String) (c : Char) : String :=
  String.mk (s.data.filter (fun a => a != c))

/-- Python `str.split("\n")`. -/
def pySplitLines (s : String) : List String :=
  (s.data.splitOn '\n').map (fun l => String.mk l)

/-- The process oracle: exit code, stdout and stderr of executing an argument
vector. -/
abbrev ExecOracle := List String → Int × String × String

/-- The coroutine `run_command` (`src/gitalong/batch.py:157-177`): run the external
command, raise on a non-zero exit code, otherwise return the stripped stdout
string. -/
def run_command (execO : ExecOracle) (args : List String) : Except PyErr String :=
  match execO args with
  | (returncode, stdout, _stderr) =>
    if returncode != 0 then Except.error PyErr.commandFailed
    else Except.ok (pyStrip stdout)

/-- An element of the Python `args` list built by `get_commits_branches`: the
expression `"--remote" if remote else []` places a list, not a string, in the
vector. -/
inductive PyArg where
  | str (s : String)
  | emptyList
deriving DecidableEq, Repr

/-- The argument vector of `src/gitalong/batch.py:140-141` (note there is no
`branch` subcommand in it; a non-string `clone`/`sha` value, not modelled, would
also fail at exec time). -/
def branchesQueryArgs (remote : Bool) (commit : Record) : List PyArg :=
  [PyArg.str "git", PyArg.str "-C", PyArg.str (getStrD commit "clone" ""),
   if remote then PyArg.str "--remote" else PyArg.emptyList,
   PyArg.str "--contains", PyArg.str (getStrD commit "sha" "")]

/-- `asyncio.create_subprocess_exec(*args, ...)` requires every argument to be a
string; a list element raises `TypeError` when the coroutine is awaited. -/
def execArgString : PyArg → Except PyErr String
  | PyArg.str s => Except.ok s
  | PyArg.emptyList => Except.error PyErr.typeError

/-- Awaiting one `run_command(args)` coroutine created by `get_commits_branches`. -/
def awaitBranchesTask (execO : ExecOracle) (args : List PyArg) : Except PyErr String :=
  match args.mapM execArgString with
  | Except.error e => Except.error e
  | Except.ok strs => run_command execO strs

/-- The body of the result loop of `get_commits_branches`
(`src/gitalong/batch.py:144-153`): `result` is the string returned by `run_command`,
so `stdout = result[0]` takes its first character (IndexError on the empty string)
and `stdout.decode("utf-8")` then raises AttributeError, a `str` having no
`decode`. -/
def processBranchesResult (result : String) : Except PyErr (List String) :=
  if result.isEmpty then Except.error PyErr.indexError
  else Except.error PyErr.attributeError

/-- The per-commit loop of `get_commits_branches` (`src/gitalong/batch.py:139-153`),
with the source's `asyncio.gather(*tasks)` inside the loop: `awaited` counts the
coroutines already awaited by the gather of a previous iteration, and awaiting such
a coroutine again raises RuntimeError. -/
def branchesLoop (execO : ExecOracle) (remote : Bool) :
    List Record → List (List PyArg) → Nat → List (List String) →
      Except PyErr (List (List String))
  | [], _, _, acc => Except.ok acc
  | commit :: rest, tasks, awaited, acc =>
    let tasks2 := tasks ++ [branchesQueryArgs remote commit]
    if awaited > 0 then Except.error PyErr.runtimeError
    else
      match tasks2.mapM (awaitBranchesTask execO) with
      | Except.error e => Except.error e
      | Except.ok results =>
        match results.mapM processBranchesResult with
        | Except.error e => Except.error e
        | Except.ok processed =>
          branchesLoop execO remote rest tasks2 tasks2.length (acc ++ processed)

/-- `get_commits_branches` (`src/gitalong/batch.py:128-154`). -/
def get_commits_branches (execO : ExecOracle) (commits : List Record) (remote : Bool) :
    Except PyErr (List (List String)) :=
  branchesLoop execO remote commits [] 0 []

/-- C4: `get_commits_branches` raises on every nonempty input, whatever the process
oracle does — on the very first iteration, either the exec argument vector is
rejected (`remote=False` places a list in it), or the command failure propagates
uncaught through `asyncio.gather`, or a successful command's string output hits
`result[0].decode("utf-8")`, which raises AttributeError — so it can never return
one branch set per commit, and failures surface as errors. -/
theorem C4_get_commits_branches_always_raises (execO : ExecOracle) (remote : Bool)
    (c : Record) (rest : List Record) :
    ∃ e, get_commits_branches execO (c :: rest) remote = Except.error e := by
  unfold get_commits_branches branchesLoop
  cases h : awaitBranchesTask execO (branchesQueryArgs remote c) with
  | error e =>
    exact ⟨e, by simp [h, List.mapM.loop]⟩
  | ok s =>
    by_cases hs : s.isEmpty
    · exact ⟨PyErr.indexError,
        by simp [h, hs, List.mapM.loop, processBranchesResult]⟩
    · exact ⟨PyErr.attributeError,
        by simp [h, hs, List.mapM.loop, processBranchesResult]⟩

/-- C4 witness: the concrete failing input — one well-formed ledger record queried
for remote branches, with a process oracle that runs every command successfully. -/
theorem C4_get_commits_branches_always_raises_witness :
    ∃ e, get_commits_branches (fun _ => (0, "  origin/main", "")) [sampleRecord] true =
      Except.error e :=
  C4_get_commits_branches_always_raises (fun _ => (0, "  origin/main", "")) true
    sampleRecord []

/-- A raw `git.Commit` object as `batch.py` consumes it: hash, parent hashes, the
clone's working directory, the `origin` remote URL, the committed datetime and the
author name. -/
structure RawCommit where
  hexsha : String
  parents : List String
  workingDir : String
  remoteUrl : String
  committedDatetime : String
  authorName : String
deriving DecidableEq, Repr

/-- The duck-typed commit representation of `batch.py`: either an already-resolved
dict or a raw commit object. -/
inductive CommitObj where
  | dict (r : Record)
  | raw (c : RawCommit)
deriving DecidableEq, Repr

/-- The diff argument vector of `get_commit_changes`
(`src/gitalong/batch.py:194-201`).  Note the source diffs `f"{sha}^"` against
`parents[0]` — the commit's first parent against itself — when a parent exists, and
the commit against the working tree (not the empty tree) when it has none. -/
def changesQueryArgs (c : RawCommit) : List String :=
  let parent := c.parents.headD ""
  ["git", "-C", c.workingDir, "diff", "--numstat", "--no-renames"] ++
    (if parent != "" then [c.hexsha ++ "^", parent] else [c.hexsha]) ++ ["--"]

/-- The result processing of `get_commit_changes` (`src/gitalong/batch.py:204-207`):
as in `get_commits_branches`, `stdout = result[0]` takes the first character of the
string returned by `run_command` (IndexError when it is empty) and
`stdout.decode("utf-8")` raises AttributeError; the path column is never
extracted. -/
def processChangesResult (result : String) : Except PyErr (List String) :=
  if result.isEmpty then Except.error PyErr.indexError
  else Except.error PyErr.attributeError

/-- The first loop of `get_commit_changes` (`src/gitalong/batch.py:190-202`): dict
commits contribute their stored `changes` immediately, raw commits enqueue a diff
task. -/
def changesFoldStep (acc : List (List String) × List (List String)) (c : CommitObj) :
    List (List String) × List (List String) :=
  match c with
  | CommitObj.dict r => (acc.1 ++ [getChanges r], acc.2)
  | CommitObj.raw rc => (acc.1, acc.2 ++ [changesQueryArgs rc])

/-- `get_commit_changes` (`src/gitalong/batch.py:180-208`): dict results are
appended in the first loop and raw results only after the single gather, so all
dict results precede all raw results in the output regardless of input order. -/
def get_commit_changes (execO : ExecOracle) (commits : List CommitObj) :
    Except PyErr (List (List String)) :=
  match (commits.foldl changesFoldStep ([], [])).2.mapM (run_command execO) with
  | Except.error e => Except.error e
  | Except.ok results =>
    match results.mapM processChangesResult with
    | Except.error e => Except.error e
    | Except.ok processed =>
      Except.ok ((commits.foldl changesFoldStep ([], [])).1 ++ processed)

/-- Task extraction used to characterize the fold of `get_commit_changes`. -/
def rawTaskOf : CommitObj → Option (List String)
  | CommitObj.dict _ => none
  | CommitObj.raw rc => some (changesQueryArgs rc)

theorem changes_foldl_snd (commits : List CommitObj)
    (p : List (List String) × List (List String)) :
    (commits.foldl changesFoldStep p).2 = p.2 ++ commits.filterMap rawTaskOf := by
  induction commits generalizing p with
  | nil => simp
  | cons c rest ih =>
    cases c with
    | dict r => simp [changesFoldStep, ih, rawTaskOf]
    | raw rc => simp [changesFoldStep, ih, rawTaskOf]

theorem mapM_loop_shape {α β : Type} (f : α → Except PyErr β) :
    ∀ (ts : List α) (acc : List β),
      (∃ e, List.mapM.loop f ts acc = Except.error e) ∨
      (∃ l, List.mapM.loop f ts acc = Except.ok l ∧ l.length = ts.length + acc.length)
  | [], acc => Or.inr ⟨acc.reverse, rfl, by simp⟩
  | t :: ts, acc => by
    have hstep : List.mapM.loop f (t :: ts) acc =
        (f t).bind (fun b => List.mapM.loop f ts (b :: acc)) := rfl
    cases hf : f t with
    | error e =>
      refine Or.inl ⟨e, ?_⟩
      rw [hstep, hf]
      rfl
    | ok b =>
      rcases mapM_loop_shape f ts (b :: acc) with ⟨e, he⟩ | ⟨l, hl, hlen⟩
      · refine Or.inl ⟨e, ?_⟩
        rw [hstep, hf]
        exact he
      · refine Or.inr ⟨l, ?_, ?_⟩
        · rw [hstep, hf]
          exact hl
        · have h1 : (b :: acc).length = acc.length + 1 := rfl
          have h2 : (t :: ts).length = ts.length + 1 := rfl
          omega

theorem mapM_cons_shape {α β : Type} (f : α → Except PyErr β) (t : α) (ts : List α) :
    (∃ e, (t :: ts).mapM f = Except.error e) ∨
    (∃ r rs, (t :: ts).mapM f = Except.ok (r :: rs)) := by
  have hdef : (t :: ts).mapM f = List.mapM.loop f (t :: ts) [] := rfl
  rcases mapM_loop_shape f (t :: ts) [] with ⟨e, he⟩ | ⟨l, hl, hlen⟩
  · exact Or.inl ⟨e, by rw [hdef, he]⟩
  · cases l with
    | nil => simp at hlen
    | cons r rs => exact Or.inr ⟨r, rs, by rw [hdef, hl]⟩

theorem mapM_processChanges_error (r : String) (rs : List String) :
    ∃ e, (r :: rs).mapM processChangesResult = Except.error e := by
  have hstep : (r :: rs).mapM processChangesResult =
      (processChangesResult r).bind
        (fun b => List.mapM.loop processChangesResult rs [b]) := rfl
  by_cases h : r.isEmpty
  · refine ⟨PyErr.indexError, ?_⟩
    have hp : processChangesResult r = Except.error PyErr.indexError := by
      simp [processChangesResult, h]
    rw [hstep, hp]
    rfl
  · refine ⟨PyErr.attributeError, ?_⟩
    have hp : processChangesResult r = Except.error PyErr.attributeError := by
      simp [processChangesResult, h]
    rw [hstep, hp]
    rfl

/-- C9: `get_commit_changes` raises on every input containing a raw commit object,
whatever the process oracle does — the diff task's string result hits
`result[0].decode("utf-8")` (AttributeError), or the command failure propagates — so
for raw commits it never returns the parsed path column; in addition its diff
arguments compare the commit's first parent against itself and compare parentless
commits against the working tree rather than the empty tree, and dict results are
emitted before all raw results, breaking input order for mixed inputs. -/
theorem C9_get_commit_changes_raises_on_raw (execO : ExecOracle)
    (pre post : List CommitObj) (rc : RawCommit) :
    ∃ e, get_commit_changes execO (pre ++ CommitObj.raw rc :: post) = Except.error e := by
  unfold get_commit_changes
  have htasks := changes_foldl_snd (pre ++ CommitObj.raw rc :: post)
    (([], []) : List (List String) × List (List String))
  have hne : ((pre ++ CommitObj.raw rc :: post).foldl changesFoldStep ([], [])).2 ≠ [] := by
    rw [htasks]
    intro hcontra
    have : changesQueryArgs rc ∈
        (pre ++ CommitObj.raw rc :: post).filterMap rawTaskOf := by
      apply List.mem_filterMap.2
      exact ⟨CommitObj.raw rc, by simp, rfl⟩
    rw [List.nil_append] at hcontra
    rw [hcontra] at this
    cases this
  obtain ⟨t, ts, hts⟩ := List.exists_cons_of_ne_nil hne
  rw [hts]
  rcases mapM_cons_shape (run_command execO) t ts with ⟨e, he⟩ | ⟨r, rs, hok⟩
  · refine ⟨e, ?_⟩
    simp only [he]
  · obtain ⟨e, hp⟩ := mapM_processChanges_error r rs
    refine ⟨e, ?_⟩
    simp only [hok, hp]

/-- C9 witness: a concrete mixed input — one resolved dict and one raw commit — with
a process oracle that runs every command successfully, still raises. -/
theorem C9_get_commit_changes_raises_on_raw_witness :
    ∃ e, get_commit_changes (fun _ => (0, "1\t2\tart/model.fbx", ""))
      [CommitObj.dict sampleRecord,
       CommitObj.raw ⟨"abc", ["p1"], "/clones/a", "origin-url", "t", "alice"⟩] =
      Except.error e :=
  C9_get_commit_changes_raises_on_raw (fun _ => (0, "1\t2\tart/model.fbx", ""))
    [CommitObj.dict sampleRecord] []
    ⟨"abc", ["p1"], "/clones/a", "origin-url", "t", "alice"⟩

/-- `get_commits_dicts` (`src/gitalong/batch.py:211-235`): resolve every commit's
changes, then convert raw commits to dicts while dict commits pass through; `zip`
pairs each commit with the changes list at its position (positions that the ordering
bug of `get_commit_changes` misaligns for mixed inputs). -/
def get_commits_dicts (execO : ExecOracle) (commits : List CommitObj) :
    Except PyErr (List Record) :=
  match get_commit_changes execO commits with
  | Except.error e => Except.error e
  | Except.ok changesList =>
    Except.ok ((commits.zip changesList).map (fun pair =>
      match pair.1 with
      | CommitObj.dict r => r
      | CommitObj.raw rc =>
        [("sha", Val.str rc.hexsha), ("remote", Val.str rc.remoteUrl),
         ("changes", Val.strs pair.2), ("date", Val.str rc.committedDatetime),
         ("author", Val.str rc.authorName)]))

/-- Identity, configuration and git-query oracles of one managed repository as
`get_files_last_commits` consumes them: `relativePath` models
`repository.get_relative_path`, `contextKeys` the keys of
`repository.context_dict`, `fetchResult` the two `fetch(prune=prune)` calls of the
try block, `logOutput` the output of
`git log --all --remotes --pretty=format:"%H" -- <path>` for a relative path, and
`commitLookup` the `repo.commit(sha)` resolution, `none` when the revision does not
resolve and gitpython raises.  `pulledWithin` is modelled from the spec:
`pulled_within(repo, pull_threshold)` — whether the repository pulled during the
last `pull_threshold` seconds — lives in a file not under `src/`. -/
structure RepoInfo where
  workingDir : String
  remoteUrl : String
  relativePath : String → String
  trackUncommitted : Bool
  contextKeys : List String
  pulledWithin : Bool
  fetchResult : Except PyErr Unit
  logOutput : String → String
  commitLookup : String → Option RawCommit

/-- The external world of `get_files_last_commits`: `repoOf` models
`get_repository_safe` (`src/gitalong/batch.py:17-32`; `none` when the path is not
inside a valid repository or gitalong is not set up, both exceptions being caught),
`np` models `os.path.normpath`, and `execO` is the process oracle. -/
structure Env where
  repoOf : String → Option RepoInfo
  np : String → String
  execO : ExecOracle

/-- The no-candidate fallback of `get_files_last_commits`
(`src/gitalong/batch.py:93-107`): fetch only when the repository was not pulled
within `pull_threshold` seconds, swallowing `git.exc.GitCommandError` only; then
strip quotes from the path-restricted log output, split it on newlines, take the
first hash and resolve it with `repo.commit`.  Output: whether a fetch was
attempted, and the resolved commit. -/
def historyFallback (repo : RepoInfo) (rel : String) : Bool × Except PyErr RawCommit :=
  let fetchOutcome : Except PyErr Unit :=
    if repo.pulledWithin then Except.ok ()
    else
      match repo.fetchResult with
      | Except.error PyErr.gitCommandError => Except.ok ()
      | Except.error e => Except.error e
      | Except.ok () => Except.ok ()
  (!repo.pulledWithin,
    match fetchOutcome with
    | Except.error e => Except.error e
    | Except.ok () =>
      let output := repo.logOutput rel
      let fileCommits :=
        if output != "" then pySplitLines (pyRemoveChar output '"') else []
      let sha := fileCommits.headD ""
      match repo.commitLookup sha with
      | some c => Except.ok c
      | none => Except.error PyErr.badName)

/-- One iteration of the per-path loop of `get_files_last_commits`
(`src/gitalong/batch.py:48-107`) for a managed path: filter the ledger, pick the
latest candidate, on a ledger hit run the remote branch-membership query and the
self-heal check (remove the record from the ledger, write the ledger back, delete
the context keys), and fall back to git history when `last_commit` is still
empty. -/
def resolvePath (env : Env) (repo : RepoInfo) (filename : String) (ledger : List Record) :
    Except PyErr (CommitObj × List Record) :=
  let rel := repo.relativePath filename
  let cands :=
    relevant_tracked_commits env.np repo.trackUncommitted repo.remoteUrl rel ledger
  let healed : Except PyErr (Record × List Record) :=
    match selectLastCommit cands with
    | none => Except.ok ([], ledger)
    | some lastCommit =>
      match get_commits_branches env.execO [lastCommit] true with
      | Except.error e => Except.error e
      | Except.ok branchesList =>
        if hasKey lastCommit "sha" then
          match branchesList with
          | [] => Except.error PyErr.indexError
          | b0 :: _ =>
            if b0 != [] then
              Except.ok (repo.contextKeys.foldl eraseKey lastCommit,
                ledger.erase lastCommit)
            else Except.ok (lastCommit, ledger)
        else Except.ok (lastCommit, ledger)
  match healed with
  | Except.error e => Except.error e
  | Except.ok (lastCommit, ledger2) =>
    if lastCommit == ([] : Record) then
      match (historyFallback repo rel).2 with
      | Except.error e => Except.error e
      | Except.ok c => Except.ok (CommitObj.raw c, ledger2)
    else Except.ok (CommitObj.dict lastCommit, ledger2)

/-- The per-path loop of `get_files_last_commits` (`src/gitalong/batch.py:47-109`),
threading the store ledger (self-heal writes land there); an unmanaged path appends
the empty dict and continues. -/
def filesLoop (env : Env) :
    List String → List Record → List CommitObj →
      Except PyErr (List CommitObj) × List Record
  | [], ledger, acc => (Except.ok acc, ledger)
  | filename :: rest, ledger, acc =>
    match env.repoOf filename with
    | none => filesLoop env rest ledger (acc ++ [CommitObj.dict []])
    | some repo =>
      match resolvePath env repo filename ledger with
      | Except.error e => (Except.error e, ledger)
      | Except.ok (c, ledger2) => filesLoop env rest ledger2 (acc ++ [c])

/-- The branch-annotation merge of one dict (`src/gitalong/batch.py:115-123`):
`setdefault("branches", {})` then assignment of the nonempty lists. -/
def mergeBranchesOne (r : Record) (localBranches remoteBranches : List String) : Record :=
  let withLocal :=
    if localBranches != [] then
      match getVal r "branches" with
      | some (Val.branchesDict _ rb) =>
        setKey r "branches" (Val.branchesDict (some localBranches) rb)
      | _ => setKey r "branches" (Val.branchesDict (some localBranches) none)
    else r
  if remoteBranches != [] then
    match getVal withLocal "branches" with
    | some (Val.branchesDict lb _) =>
      setKey withLocal "branches" (Val.branchesDict lb (some remoteBranches))
    | _ => setKey withLocal "branches" (Val.branchesDict none (some remoteBranches))
  else withLocal

/-- Python `zip` over the three lists (stopping at the shortest) followed by the
in-place mutation of each dict; dicts beyond the shortest list are returned
unmodified. -/
def mergeBranchesLists : List Record → List (List String) → List (List String) →
    List Record
  | [], _, _ => []
  | ds, [], _ => ds
  | ds, _, [] => ds
  | d :: ds, l :: ls, r :: rs => mergeBranchesOne d l r :: mergeBranchesLists ds ls rs

/-- `get_files_last_commits` (`src/gitalong/batch.py:35-125`): the per-path
resolution loop, then the batch enrichment — `get_commits_dicts`, a local and a
remote `get_commits_branches` pass, and the merge of the branch annotations.
Output: the result and the final ledger of the store. -/
def get_files_last_commits (env : Env) (filenames : List String) (ledger : List Record) :
    Except PyErr (List Record) × List Record :=
  match filesLoop env filenames ledger [] with
  | (Except.error e, st) => (Except.error e, st)
  | (Except.ok lastCommits, st) =>
    match get_commits_dicts env.execO lastCommits with
    | Except.error e => (Except.error e, st)
    | Except.ok dicts =>
      match get_commits_branches env.execO dicts false with
      | Except.error e => (Except.error e, st)
      | Except.ok localsList =>
        match get_commits_branches env.execO dicts true with
        | Except.error e => (Except.error e, st)
        | Except.ok remotesList =>
          (Except.ok (mergeBranchesLists dicts localsList remotesList), st)

/-- Repository oracle of the specification's self-heal scenario for C3: the remote
matches the sample record, paths are already relative, `track_uncommitted` is off
and the repository pulled recently. -/
def scenarioRepo : RepoInfo :=
  ⟨"/clones/a", "origin-url", id, false, ["remote", "clone"], true, Except.ok (),
   fun _ => "", fun _ => none⟩

/-- Environment of the C3 scenario: every path belongs to `scenarioRepo` and every
subprocess exits 0 printing a remote branch name. -/
def scenarioEnv : Env :=
  ⟨fun _ => some scenarioRepo, id, fun _ => (0, "origin/main", "")⟩

/-- C3: in the specification's self-heal scenario — the ledger holds the sample
record (with a `sha`) for `art/model.fbx`, the repository's remote matches, and
every subprocess the pipeline spawns exits 0 — `get_files_last_commits` raises
`AttributeError` inside the branch-membership query of `src/gitalong/batch.py:85`
before the self-heal condition is ever evaluated, so the record is not removed, no
ledger write-back happens, and no record with stripped context keys is returned. -/
theorem C3_selfheal_unreachable :
    get_files_last_commits scenarioEnv ["art/model.fbx"] [sampleRecord] =
      (Except.error PyErr.attributeError, [sampleRecord]) := by rfl

/-- Environment with no managed repository anywhere (C5): `get_repository_safe`
returns `None` for every path. -/
def unmanagedEnv : Env :=
  ⟨fun _ => none, id, fun _ => (0, "", "")⟩

/-- C5: for a path outside any configured repository the per-path loop does append
the empty record at the path's position without raising — but the unconditional
batch enrichment (`src/gitalong/batch.py:112`) then calls `get_commits_branches`,
which raises `TypeError` (a Python list is placed in the exec argument vector when
`remote=False`), so the call raises instead of returning the empty record. -/
theorem C5_unmanaged_path_raises :
    (filesLoop unmanagedEnv ["/elsewhere/file.txt"] [] []).1 =
      Except.ok [CommitObj.dict []] ∧
    get_files_last_commits unmanagedEnv ["/elsewhere/file.txt"] [] =
      (Except.error PyErr.typeError, []) := ⟨by rfl, by rfl⟩

/-- C8: when no ledger candidate exists for a path, `get_files_last_commits`
attempts a remote fetch only if the repository was not pulled within
`pull_threshold` seconds; a `GitCommandError` raised by that fetch is swallowed, so
resolution continues with locally available history and does not fail; and the
newest commit — the first hash of the quote-stripped, newline-split, path-restricted
log over all local and remote refs — is returned. -/
theorem C8_history_fallback (repo : RepoInfo) (rel : String) (c : RawCommit)
    (hlog : repo.logOutput rel ≠ "")
    (hc : repo.commitLookup
      ((pySplitLines (pyRemoveChar (repo.logOutput rel) '"')).headD "") = some c) :
    (historyFallback repo rel).1 = !repo.pulledWithin ∧
    (repo.pulledWithin = true ∨ repo.fetchResult = Except.ok () ∨
        repo.fetchResult = Except.error PyErr.gitCommandError →
      (historyFallback repo rel).2 = Except.ok c) := by
  constructor
  · rfl
  · intro h
    have hc2 : repo.commitLookup
        ((pySplitLines (pyRemoveChar (repo.logOutput rel) '"')).head?.getD "") = some c := by
      rw [← List.headD_eq_head?_getD]
      exact hc
    unfold historyFallback
    cases hp : repo.pulledWithin with
    | true => simp [hp, hlog, hc2]
    | false =>
      rcases h with h | h | h
      · rw [hp] at h
        cases h
      · simp [hp, h, hlog, hc2]
      · simp [hp, h, hlog, hc2]

/-- First-parent raw commit resolved by the C8 witness oracle. -/
def witnessRawCommit : RawCommit :=
  ⟨"abc", ["p1"], "/clones/a", "origin-url", "2024-01-01 00:00:00", "alice"⟩

/-- Concrete repository oracle for the C8 witness: not pulled within the threshold,
a fetch raising `GitCommandError`, and a two-line quoted log whose first hash
resolves to `witnessRawCommit`. -/
def witnessRepo : RepoInfo :=
  ⟨"/clones/a", "origin-url", id, false, ["remote", "clone"], false,
   Except.error PyErr.gitCommandError, fun _ => "\"abc\"\n\"def\"",
   fun sha => if sha == "abc" then some witnessRawCommit else none⟩

/-- C8 witness: on the concrete oracle a fetch is attempted (not pulled within the
threshold), its `GitCommandError` is swallowed, and the first logged hash `abc` is
resolved and returned. -/
theorem C8_history_fallback_witness :
    (historyFallback witnessRepo "art/model.fbx").1 = true ∧
    (historyFallback witnessRepo "art/model.fbx").2 = Except.ok witnessRawCommit := by
  have h := C8_history_fallback witnessRepo "art/model.fbx" witnessRawCommit
    (by decide) (by decide)
  exact ⟨h.1, h.2 (Or.inr (Or.inr rfl))⟩

/-- The exception class names defined by `src/gitalong/exceptions.py`: exactly
`RepositoryNotSetup` and `RepositoryInvalidConfig`. -/
def exceptionsModuleNames : List String :=
  ["RepositoryNotSetup", "RepositoryInvalidConfig"]

/-- The names `src/gitalong/stores/jsonbin_store.py:6` imports from the package
exceptions module: `from ..exceptions import StoreNotReachable,
RepositoryInvalidConfig`. -/
def jsonbinStoreImportedNames : List String :=
  ["StoreNotReachable", "RepositoryInvalidConfig"]

/-- Python `from m import n1, ..., nk`: raises `ImportError` at module load time
unless every requested name is defined by the module. -/
def importFrom (defined requested : List String) : Except PyErr Unit :=
  if requested.all (fun n => defined.contains n) then Except.ok ()
  else Except.error PyErr.importError

/-- Loading `src/gitalong/stores/jsonbin_store.py`: its top-level imports run
first, so the module — and with it the `JsonbinStore` class and its `commits`
property — is usable only when they all succeed. -/
def loadJsonbinStoreModule : Except PyErr Unit :=
  importFrom exceptionsModuleNames jsonbinStoreImportedNames

/-- C6: reading the ledger (`JsonbinStore.commits` getter,
`src/gitalong/stores/jsonbin_store.py:28-41`) can never happen: the module's
top-level import of `StoreNotReachable` fails, because
`src/gitalong/exceptions.py` does not define that name, so the getter neither
serves the cache, nor performs a transport GET, nor raises `StoreNotReachable`. -/
theorem C6_jsonbin_read_unreachable :
    loadJsonbinStoreModule = Except.error PyErr.importError ∧
    "StoreNotReachable" ∉ exceptionsModuleNames :=
  ⟨by rfl, by decide⟩

/-- C7: writing the ledger (`JsonbinStore.commits` setter,
`src/gitalong/stores/jsonbin_store.py:43-55`) can never happen either: the same
failed import of `StoreNotReachable` — a name the setter's own raise statement
needs — aborts the module load, so no PUT is issued and no cache is refreshed. -/
theorem C7_jsonbin_write_unreachable :
    loadJsonbinStoreModule = Except.error PyErr.importError ∧
    "StoreNotReachable" ∈ jsonbinStoreImportedNames :=
  ⟨by rfl, by decide⟩

/-- The loop of `claim_files` (`src/gitalong/batch.py:255-276`), threading the
store ledger: for each filename, await `get_files_last_commits([filename])`, take
`last_commits[0]`, resolve the repository softly, read `modify_permissions` and the
spread (`repository.get_commit_spread`, an oracle, 0 without a repository), and run
the decision body `claim_files_step`.  The local `claimables_by_repositoy` dict of
the source is never read and is not modelled. -/
def claimFilesLoop (env : Env) (spreadOf : RepoInfo → Record → Nat)
    (modifyPermissionsOf : RepoInfo → Bool) (fileExists : String → Bool) :
    List String → List Record → List Record → Except PyErr (List Record) × List Record
  | [], ledger, acc => (Except.ok acc, ledger)
  | filename :: rest, ledger, acc =>
    match get_files_last_commits env [filename] ledger with
    | (Except.error e, st) => (Except.error e, st)
    | (Except.ok lastCommits, st) =>
      match lastCommits with
      | [] => (Except.error PyErr.indexError, st)
      | lastCommit :: _ =>
        let modifyPermissions :=
          match env.repoOf filename with
          | some repo => modifyPermissionsOf repo
          | none => false
        let spread :=
          match env.repoOf filename with
          | some repo => spreadOf repo lastCommit
          | none => 0
        let outcome := claim_files_step
          ⟨lastCommit, spread, modifyPermissions, fileExists filename⟩
        claimFilesLoop env spreadOf modifyPermissionsOf fileExists rest st
          (acc ++ [outcome.missingCommit])

/-- `claim_files` (`src/gitalong/batch.py:238-276`): the loop over the filenames
starting from an empty `missing_commits` list. -/
def claim_files (env : Env) (spreadOf : RepoInfo → Record → Nat)
    (modifyPermissionsOf : RepoInfo → Bool) (fileExists : String → Bool)
    (filenames : List String) (ledger : List Record) :
    Except PyErr (List Record) × List Record :=
  claimFilesLoop env spreadOf modifyPermissionsOf fileExists filenames ledger []

/-- C2: `claim_files` never reaches its claim decision: its first await —
`get_files_last_commits([filename])` at `src/gitalong/batch.py:258` — raises on
every nonempty input (the branch-membership bug of C4/C5).  Concretely, for an
existing file whose ledger record would carry spread `MINE_OTHER_BRANCH` — free per
the claim, which therefore predicts an empty record and a writable file — the call
raises `AttributeError` and the ledger is untouched; no record, empty or
conflicting, is ever returned, and no permission is changed.  (The dead decision
body at `src/gitalong/batch.py:262-270` would in any case consult only
`MINE_ACTIVE_BRANCH` and `MINE_UNCOMMITTED`, not the claim's free mask.) -/
theorem C2_claim_files_raises :
    claim_files scenarioEnv (fun _ _ => CommitSpread.MINE_OTHER_BRANCH)
      (fun _ => true) (fun _ => true) ["art/model.fbx"] [sampleRecord] =
      (Except.error PyErr.attributeError, [sampleRecord]) := by rfl
